import Mathlib

/-!
Verification development for a small cash-advance ledger (source file
`balance.py`).

Modelling conventions of the shallow embedding:

* Money and rates (Python floats) are modelled as rationals (`ℚ`).
* Calendar dates are modelled as proleptic-Gregorian day ordinals (`ℤ`),
  exactly as Python's `date.toordinal` numbers them (2024-01-01 is day
  738886).  `date` subtraction `(d1 - d2).days` is integer subtraction and
  `timedelta(days = n)` is integer addition, so the model is faithful.
* A raw date string handed to the ledger is modelled by its parse result
  `DateStr`: `DateStr.valid d` stands for a well-formed ISO string whose
  ordinal is `d`, and `DateStr.invalid` for a malformed string.
  `fromisoformat` models Python's `date.fromisoformat`, which raises
  `ValueError` on a malformed string.
* Python exceptions are modelled by `Except`.  A division by zero in
  Python raises `ZeroDivisionError` at the division site; the embedding
  makes that raise explicit as the `PyErr.zeroDivisionError` branch of
  `Advance.pay_interest`.
* The `Balance` object owns all `Advance` objects.  Python aliases the
  same `Advance` objects from both `self.advances` and
  `self.__unpaid_advances`; the embedding therefore stores the advances
  once, in the append-only arena `Balance.advances`, and represents
  `__unpaid_advances` as the list `Balance.unpaid_advances` of arena
  indices (insertion order preserved, each index appended exactly once).
* The generator `Balance.unpaid_advances` of the source (a `while` loop
  with an index rewind on removal) together with a consuming `for` loop
  body is modelled by `runUnpaid`: the body may stop the loop (`none`),
  raise (`Except.error`), or return the updated loop state together with
  the advance as mutated in place.  `RunResult` records the final arena,
  the final unpaid list, the final consumer state, the sequence of
  yielded indices and the raised exception, if any.  Python state
  mutated before a raise stays mutated, which the embedding mirrors by
  returning the partially updated state inside `Except.error`.
-/

namespace AmplaLedger

/-- Python exceptions that the modelled code can raise. -/
inductive PyErr where
  | valueError
  | zeroDivisionError
  deriving DecidableEq, Repr

/-- A raw date string, abstracted by its parse result: a well-formed ISO
date string carrying its day ordinal, or a malformed string. -/
inductive DateStr where
  | valid (d : ℤ)
  | invalid
  deriving DecidableEq, Repr

/-- Models `date.fromisoformat`: returns the day ordinal of a well-formed
ISO date string and raises `ValueError` on a malformed one. -/
def fromisoformat : DateStr → Except PyErr ℤ
  | .valid d => .ok d
  | .invalid => .error .valueError

/-- Model of the `Advance` class of `balance.py` (lines 5-107). -/
structure Advance where
  creation_date : ℤ
  initial_amount : ℚ
  remaining_amount : ℚ
  daily_interest_rate : ℚ
  last_interest_payment_date : ℤ
  deriving DecidableEq, Repr

instance : Inhabited Advance := ⟨⟨0, 0, 0, 0, 0⟩⟩

/-- Model of `Advance.__days_from_last_interest_payment` (lines 33-42);
the ISO-string parameter has already been parsed to its ordinal (the
parse itself is accounted for by the caller, see `Advance.pay_interest`
and `Balance.interest_payable_balance`). -/
def Advance.days_from_last_interest_payment (a : Advance) (to_date : ℤ) : ℤ :=
  if to_date ≤ a.last_interest_payment_date then 0
  else to_date - a.last_interest_payment_date

/-- Model of `Advance.interest_by_day` (lines 53-54). -/
def Advance.interest_by_day (a : Advance) : ℚ :=
  a.remaining_amount * a.daily_interest_rate

/-- Model of `Advance.interest_payable_balance` (lines 44-51). -/
def Advance.interest_payable_balance (a : Advance) (to_date : ℤ) : ℚ :=
  ((a.days_from_last_interest_payment to_date : ℤ) : ℚ) * a.interest_by_day

/-- Model of `Advance.pay_capital` (lines 56-71): mutates
`remaining_amount` and returns the unused rest. -/
def Advance.pay_capital (a : Advance) (amount : ℚ) : Advance × ℚ :=
  let remaining := a.remaining_amount - amount
  if remaining < 0 then ({ a with remaining_amount := 0 }, -remaining)
  else ({ a with remaining_amount := remaining }, 0)

/-- Model of `Advance.pay_interest` (lines 73-104).  The payment date is
parsed first (inside `interest_payable_balance` in the source, raising
`ValueError` on a malformed string before any state is touched).  In the
partial-payment branch, Python's `floor(amount / interest_by_day)`
raises `ZeroDivisionError` when `interest_by_day == 0`; the embedding
returns that raise as `PyErr.zeroDivisionError`.  On success the result
is the mutated advance together with `(rest, interest_paid)`. -/
def Advance.pay_interest (a : Advance) (amount : ℚ) (payment_date : DateStr) :
    Except PyErr (Advance × ℚ × ℚ) :=
  match fromisoformat payment_date with
  | .error e => .error e
  | .ok pd =>
    let interest := a.interest_payable_balance pd
    if interest ≤ amount then
      .ok ({ a with last_interest_payment_date := pd }, amount - interest, interest)
    else
      let interest_by_day := a.interest_by_day
      if interest_by_day = 0 then .error .zeroDivisionError
      else
        let interest_paid_in_days : ℤ := ⌊amount / interest_by_day⌋
        .ok ({ a with last_interest_payment_date :=
                 a.last_interest_payment_date + interest_paid_in_days },
             amount - (interest_paid_in_days : ℚ) * interest_by_day,
             (interest_paid_in_days : ℚ) * interest_by_day)

/-- Model of `Advance.is_close` (lines 106-107). -/
def Advance.is_close (a : Advance) : Bool :=
  a.remaining_amount = 0

/-- Model of the `Payment` class (lines 110-120); it stores the raw date
string unparsed, exactly as the source does. -/
structure Payment where
  creation_date : DateStr
  amount : ℚ
  deriving DecidableEq, Repr

/-- Model of the `Balance` class state (lines 123-161).  `advances` is
the append-only arena of all `Advance` objects in creation order;
`unpaid_advances` is the list of arena indices modelling the source's
`__unpaid_advances` list of (aliased) objects. -/
structure Balance where
  advances : List Advance
  unpaid_advances : List ℕ
  payments : List Payment
  interest_paid : ℚ
  daily_interest_rate : ℚ
  balance : ℚ
  deriving DecidableEq, Repr

/-- Model of `Balance.__init__` (lines 148-161). -/
def Balance.init (daily_interest_rate : ℚ) (balance : ℚ) : Balance :=
  { advances := [], unpaid_advances := [], payments := [],
    interest_paid := 0, daily_interest_rate := daily_interest_rate,
    balance := balance }

/-- Result of running the `unpaid_advances` generator (lines 225-240)
against a consuming loop: the final arena, the final unpaid index list,
the final consumer state, the indices yielded (in order), and the
exception raised by the loop body, if any. -/
structure RunResult (σ : Type) where
  store : List Advance
  unpaid : List ℕ
  state : σ
  yielded : List ℕ
  err : Option PyErr
  deriving Repr

/-- Model of the `unpaid_advances` generator (lines 225-240) consumed by
a loop whose body is `body`: an advance that is already closed when
reached is skipped (and, per the source, stays in the list); an open
advance is yielded to the body, which may break (`ok none`), raise
(`error`), or return the updated consumer state and the advance as
mutated in place; if the yielded advance has become closed it is removed
from the list (the source's `remove` plus the `i -= 1` / `length -= 1`
rewind, which makes the traversal continue with the next element). -/
def runUnpaid {σ : Type} (body : σ → Advance → Except PyErr (Option (σ × Advance))) :
    List Advance → List ℕ → σ → RunResult σ
  | store, [], s => ⟨store, [], s, [], none⟩
  | store, j :: rest, s =>
    let a := store.getD j default
    if a.is_close then
      let r := runUnpaid body store rest s
      ⟨r.store, j :: r.unpaid, r.state, r.yielded, r.err⟩
    else
      match body s a with
      | .error e => ⟨store, j :: rest, s, [j], some e⟩
      | .ok none => ⟨store, j :: rest, s, [j], none⟩
      | .ok (some (s', a')) =>
        let store1 := store.set j a'
        if a'.is_close then
          let r := runUnpaid body store1 rest s'
          ⟨r.store, r.unpaid, r.state, j :: r.yielded, r.err⟩
        else
          let r := runUnpaid body store1 rest s'
          ⟨r.store, j :: r.unpaid, r.state, j :: r.yielded, r.err⟩

/-- Loop body of `Balance.__pay_interest` (lines 218-223): state is the
pair `(balance, interest_paid)`; the loop breaks when the balance is 0,
otherwise pays interest on the yielded advance with the whole balance. -/
def interestBody (payment_date : DateStr) (s : ℚ × ℚ) (a : Advance) :
    Except PyErr (Option ((ℚ × ℚ) × Advance)) :=
  if s.1 = 0 then .ok none
  else
    match a.pay_interest s.1 payment_date with
    | .error e => .error e
    | .ok (a', rest, interest_paid) => .ok (some ((rest, s.2 + interest_paid), a'))

/-- Loop body of `Balance.__pay_capital` (lines 205-208): state is the
balance; the loop breaks when it is 0, otherwise pays capital on the
yielded advance with the whole balance. -/
def capitalBody (s : ℚ) (a : Advance) : Except PyErr (Option (ℚ × Advance)) :=
  if s = 0 then .ok none
  else
    let p := a.pay_capital s
    .ok (some (p.2, p.1))

/-- Model of `Balance.__pay_interest` (lines 210-223).  A raise inside
the loop propagates with the state as mutated so far (carried in the
`error` branch). -/
def Balance.pay_interest (b : Balance) (payment_date : DateStr) : Except Balance Balance :=
  let r := runUnpaid (interestBody payment_date) b.advances b.unpaid_advances
      (b.balance, b.interest_paid)
  let b1 :=
    { b with
      advances := r.store
      unpaid_advances := r.unpaid
      balance := r.state.1
      interest_paid := r.state.2 }
  match r.err with
  | some _ => .error b1
  | none => .ok b1

/-- Model of `Balance.__pay_capital` (lines 201-208); its loop body
cannot raise. -/
def Balance.pay_capital (b : Balance) : Balance :=
  let r := runUnpaid capitalBody b.advances b.unpaid_advances b.balance
  { b with advances := r.store, unpaid_advances := r.unpaid, balance := r.state }

/-- Model of `Balance.add_advance` (lines 163-186): offsets the new
advance against the available balance, then constructs the `Advance`
(whose constructor parses the date string, raising `ValueError` on a
malformed one after the balance was already mutated) and appends it to
both `advances` and `__unpaid_advances`. -/
def Balance.add_advance (b : Balance) (advance_date : DateStr) (amount : ℚ)
    (rate0 : Option ℚ) : Except Balance Balance :=
  let daily_interest_rate := rate0.getD b.daily_interest_rate
  let p : ℚ × ℚ :=
    if amount < b.balance then (b.balance - amount, 0) else (0, amount - b.balance)
  let b1 := { b with balance := p.1 }
  match fromisoformat advance_date with
  | .error _ => .error b1
  | .ok cd =>
    let advance : Advance :=
      { creation_date := cd, initial_amount := amount, remaining_amount := p.2,
        daily_interest_rate := daily_interest_rate,
        last_interest_payment_date := cd }
    .ok
      { b1 with
        advances := b1.advances ++ [advance]
        unpaid_advances := b1.unpaid_advances ++ [b1.advances.length] }

/-- Model of `Balance.add_payment` (lines 188-199): appends the payment
record, adds the amount to the balance, then runs the interest sweep
followed by the capital sweep.  A raise inside the interest sweep
propagates, leaving the state mutated so far. -/
def Balance.add_payment (b : Balance) (payment_date : DateStr) (amount : ℚ) :
    Except Balance Balance :=
  let b1 :=
    { b with
      payments := b.payments ++ [Payment.mk payment_date amount]
      balance := b.balance + amount }
  match b1.pay_interest payment_date with
  | .error b2 => .error b2
  | .ok b2 => .ok b2.pay_capital

/-- Model of `Balance.advances_balance` (lines 242-248): sums
`remaining_amount` over a full `unpaid_advances` traversal; the
traversal's (here vacuous) side effects on the state are kept. -/
def Balance.advances_balance (b : Balance) : Balance × ℚ :=
  let r := runUnpaid (fun acc a => .ok (some (acc + a.remaining_amount, a)))
      b.advances b.unpaid_advances (0 : ℚ)
  ({ b with advances := r.store, unpaid_advances := r.unpaid }, r.state)

/-- Model of `Balance.interest_payable_balance` (lines 250-262): shifts
`to_date` (already parsed to its ordinal) one day forward and sums the
per-advance accrued interest over a full `unpaid_advances` traversal. -/
def Balance.interest_payable_balance (b : Balance) (to_date : ℤ) : Balance × ℚ :=
  let r := runUnpaid (fun acc a => .ok (some (acc + a.interest_payable_balance (to_date + 1), a)))
      b.advances b.unpaid_advances (0 : ℚ)
  ({ b with advances := r.store, unpaid_advances := r.unpaid }, r.state)

/-- State left behind by an operation, whether it returned normally or
raised: in Python an exception does not roll back mutations already
performed on the object. -/
def resultState : Except Balance Balance → Balance
  | .ok b => b
  | .error b => b

/-- States of a `Balance` reachable through its public interface when
every amount handed to it is non-negative (the `NegativeAmount`
precondition of the spec); failed calls also leave (possibly mutated)
reachable states behind. -/
inductive Reachable : Balance → Prop where
  | init (rate bal : ℚ) (h : 0 ≤ bal) : Reachable (Balance.init rate bal)
  | add_advance (b : Balance) (d : DateStr) (amount : ℚ) (rate0 : Option ℚ)
      (hb : Reachable b) (h : 0 ≤ amount) :
      Reachable (resultState (b.add_advance d amount rate0))
  | add_payment (b : Balance) (d : DateStr) (amount : ℚ)
      (hb : Reachable b) (h : 0 ≤ amount) :
      Reachable (resultState (b.add_payment d amount))
  | advances_balance (b : Balance) (hb : Reachable b) :
      Reachable (b.advances_balance).1
  | interest_payable_balance (b : Balance) (to_date : ℤ) (hb : Reachable b) :
      Reachable (b.interest_payable_balance to_date).1

/-! ### Basic facts about `Advance` -/

/-- The day count never goes negative: dates at or before the last
interest payment date yield 0. -/
theorem Advance.days_from_last_interest_payment_nonneg (a : Advance) (d : ℤ) :
    0 ≤ a.days_from_last_interest_payment d := by
  unfold Advance.days_from_last_interest_payment
  split
  · exact le_refl 0
  · omega

/-- C1: for every advance with positive per-day interest, a partial
interest payment (an amount below the accrued interest) credits
`daysCovered = floor(amount / interestByDay())` whole days: the last
interest payment date advances by exactly `daysCovered` days and the
call returns `(amount - daysCovered * interestByDay(), daysCovered *
interestByDay())`. -/
theorem C1_pay_interest_floor_days (a : Advance) (amount : ℚ) (d : ℤ)
    (hibd : 0 < a.interest_by_day) (h0 : 0 ≤ amount)
    (hlt : amount < a.interest_payable_balance d) :
    a.pay_interest amount (.valid d) =
      .ok ({ a with last_interest_payment_date :=
               a.last_interest_payment_date + ⌊amount / a.interest_by_day⌋ },
           amount - (⌊amount / a.interest_by_day⌋ : ℚ) * a.interest_by_day,
           (⌊amount / a.interest_by_day⌋ : ℚ) * a.interest_by_day) := by
  simp only [Advance.pay_interest, fromisoformat]
  rw [if_neg (not_le.mpr hlt), if_neg hibd.ne']

/-- Witness for C1 at the spec's concrete scenario: remaining 1000, rate
0.001 (so one unit of interest per day), last interest payment
2024-01-01 (ordinal 738886), payment of 2.5 on 2024-01-05 (738890):
two days are covered, the date becomes 2024-01-03 (738888) and the call
returns (0.5, 2). -/
theorem C1_pay_interest_floor_days_witness :
    (⟨738886, 1000, 1000, 1/1000, 738886⟩ : Advance).pay_interest (5/2) (.valid 738890)
      = .ok (⟨738886, 1000, 1000, 1/1000, 738888⟩, 1/2, 2) := by
  have h := C1_pay_interest_floor_days ⟨738886, 1000, 1000, 1/1000, 738886⟩ (5/2) 738890
    (by norm_num [Advance.interest_by_day]) (by norm_num)
    (by norm_num [Advance.interest_payable_balance,
      Advance.days_from_last_interest_payment, Advance.interest_by_day])
  rw [h]
  norm_num [Advance.interest_by_day]

/-- C5 counterexample: a `payInterest` call with a non-negative amount
can move `lastInterestPaymentDate` backwards.  The advance last had
interest paid on 2024-01-05 (ordinal 738890); `payInterest(0,
"2024-01-01")` hits the full-payment branch (accrued interest is 0 and
the amount 0 covers it) and unconditionally assigns the payment date,
738886 < 738890. -/
theorem C5_monotonicity_counterexample :
    (⟨738890, 100, 100, 1/100, 738890⟩ : Advance).pay_interest 0 (.valid 738886)
      = .ok (⟨738890, 100, 100, 1/100, 738886⟩, 0, 0) ∧ (738886 : ℤ) < 738890 := by
  constructor
  · norm_num [Advance.pay_interest, fromisoformat, Advance.interest_payable_balance,
      Advance.days_from_last_interest_payment, Advance.interest_by_day]
  · norm_num

/-- C5 as amended: `lastInterestPaymentDate` never decreases across a
successful `payInterest` call with a non-negative amount, provided the
payment date is not earlier than the current last interest payment
date.  (The counterexample shows the proviso is needed: a backdated
payment date is copied verbatim in the full-payment branch.) -/
theorem C5_monotonicity_amended (a : Advance) (amount : ℚ) (d : ℤ)
    (a' : Advance) (rest ip : ℚ) (h0 : 0 ≤ amount)
    (hd : a.last_interest_payment_date ≤ d)
    (h : a.pay_interest amount (.valid d) = .ok (a', rest, ip)) :
    a.last_interest_payment_date ≤ a'.last_interest_payment_date := by
  simp only [Advance.pay_interest, fromisoformat] at h
  by_cases hle : a.interest_payable_balance d ≤ amount
  · rw [if_pos hle] at h
    injection h with h
    injection h with h1 h2
    subst h1
    exact hd
  · rw [if_neg hle] at h
    by_cases hz : a.interest_by_day = 0
    · rw [if_pos hz] at h
      cases h
    · rw [if_neg hz] at h
      injection h with h
      injection h with h1 h2
      subst h1
      simp only [Advance.mk.injEq]
      have hibd : 0 < a.interest_by_day := by
        rcases lt_trichotomy a.interest_by_day 0 with hneg | hzero | hpos
        · exfalso
          have hdays : 0 ≤ a.days_from_last_interest_payment d :=
            a.days_from_last_interest_payment_nonneg d
          have : a.interest_payable_balance d ≤ 0 := by
            unfold Advance.interest_payable_balance
            apply mul_nonpos_of_nonneg_of_nonpos
            · exact_mod_cast hdays
            · exact le_of_lt hneg
          exact hle (le_trans this h0)
        · exact absurd hzero hz
        · exact hpos
      have : (0 : ℤ) ≤ ⌊amount / a.interest_by_day⌋ :=
        Int.floor_nonneg.mpr (div_nonneg h0 (le_of_lt hibd))
      omega

/-- Witness for the amended C5: on the C1 advance, paying 0.5 on
2024-01-05 covers zero whole days, so the date stays at 738886 and does
not decrease. -/
theorem C5_monotonicity_amended_witness :
    (⟨738886, 1000, 1000, 1/1000, 738886⟩ : Advance).pay_interest (1/2) (.valid 738890)
        = .ok (⟨738886, 1000, 1000, 1/1000, 738886⟩, 1/2, 0)
    ∧ (⟨738886, 1000, 1000, 1/1000, 738886⟩ : Advance).last_interest_payment_date
        ≤ (⟨738886, 1000, 1000, 1/1000, 738886⟩ : Advance).last_interest_payment_date := by
  have heq : (⟨738886, 1000, 1000, 1/1000, 738886⟩ : Advance).pay_interest (1/2) (.valid 738890)
      = .ok (⟨738886, 1000, 1000, 1/1000, 738886⟩, 1/2, 0) := by
    norm_num [Advance.pay_interest, fromisoformat, Advance.interest_payable_balance,
      Advance.days_from_last_interest_payment, Advance.interest_by_day]
  exact ⟨heq, C5_monotonicity_amended _ _ _ _ _ _ (by norm_num) (by norm_num) heq⟩

/-- C8: attempting a partial interest payment (amount strictly below the
accrued interest) on an advance whose per-day interest is 0 fails fast
with an error (Python's `ZeroDivisionError`, raised at the
`floor(amount / interest_by_day)` division) instead of silently
producing an undefined or NaN result. -/
theorem C8_zero_interest_by_day_raises (a : Advance) (amount : ℚ) (d : ℤ)
    (hz : a.interest_by_day = 0) (hlt : amount < a.interest_payable_balance d) :
    a.pay_interest amount (.valid d) = .error .zeroDivisionError := by
  simp only [Advance.pay_interest, fromisoformat]
  rw [if_neg (not_le.mpr hlt), if_pos hz]

/-- Witness for C8: a closed advance (remaining 0, so per-day interest
0) asked for a partial interest payment of -1 (the only way the partial
branch can be reached with zero per-day interest) raises. -/
theorem C8_zero_interest_by_day_raises_witness :
    (⟨738886, 0, 0, 1/100, 738886⟩ : Advance).interest_by_day = 0
    ∧ (-1 : ℚ) < (⟨738886, 0, 0, 1/100, 738886⟩ : Advance).interest_payable_balance 738890
    ∧ (⟨738886, 0, 0, 1/100, 738886⟩ : Advance).pay_interest (-1) (.valid 738890)
        = .error .zeroDivisionError := by
  refine ⟨?_, ?_, ?_⟩
  · norm_num [Advance.interest_by_day]
  · norm_num [Advance.interest_payable_balance, Advance.days_from_last_interest_payment,
      Advance.interest_by_day]
  · exact C8_zero_interest_by_day_raises _ _ _ (by norm_num [Advance.interest_by_day])
      (by norm_num [Advance.interest_payable_balance,
        Advance.days_from_last_interest_payment, Advance.interest_by_day])

/-- C6: `addAdvance` offsets the new advance against the cash buffer —
if the buffer strictly exceeds the amount the advance starts fully
pre-funded (remaining 0) and the buffer drops by the amount, otherwise
the advance absorbs the whole buffer (remaining = amount - buffer,
buffer 0) — and the advance is appended to both `advances` and
`unpaidAdvances`; in particular, adding a 500 advance to a ledger with
buffer 200 yields remaining 300 and buffer 0. -/
theorem C6_add_advance_buffer_offset :
    (∀ (b : Balance) (d : ℤ) (amount : ℚ) (rate0 : Option ℚ),
      b.add_advance (.valid d) amount rate0 =
        .ok { b with
              balance := if amount < b.balance then b.balance - amount else 0
              advances := b.advances ++
                [⟨d, amount, if amount < b.balance then 0 else amount - b.balance,
                  rate0.getD b.daily_interest_rate, d⟩]
              unpaid_advances := b.unpaid_advances ++ [b.advances.length] })
    ∧ (Balance.init (1/100) 200).add_advance (.valid 738886) 500 none
        = .ok ⟨[⟨738886, 500, 300, 1/100, 738886⟩], [0], [], 0, 1/100, 0⟩ := by
  constructor
  · intro b d amount rate0
    by_cases h : amount < b.balance
    · simp [Balance.add_advance, fromisoformat, h]
    · simp [Balance.add_advance, fromisoformat, h]
  · norm_num [Balance.add_advance, Balance.init, fromisoformat]

/-! ### Rewriting lemmas for the traversal `runUnpaid` -/

theorem runUnpaid_nil {σ : Type} (body : σ → Advance → Except PyErr (Option (σ × Advance)))
    (store : List Advance) (s : σ) :
    runUnpaid body store [] s = ⟨store, [], s, [], none⟩ := rfl

theorem runUnpaid_cons_closed {σ : Type}
    (body : σ → Advance → Except PyErr (Option (σ × Advance)))
    (store : List Advance) (j : ℕ) (rest : List ℕ) (s : σ)
    (h : (store.getD j default).is_close = true) :
    runUnpaid body store (j :: rest) s =
      ⟨(runUnpaid body store rest s).store,
       j :: (runUnpaid body store rest s).unpaid,
       (runUnpaid body store rest s).state,
       (runUnpaid body store rest s).yielded,
       (runUnpaid body store rest s).err⟩ := by
  simp only [runUnpaid, h, if_true]

theorem runUnpaid_cons_open_error {σ : Type}
    (body : σ → Advance → Except PyErr (Option (σ × Advance)))
    (store : List Advance) (j : ℕ) (rest : List ℕ) (s : σ) (e : PyErr)
    (h : (store.getD j default).is_close = false)
    (hb : body s (store.getD j default) = .error e) :
    runUnpaid body store (j :: rest) s = ⟨store, j :: rest, s, [j], some e⟩ := by
  simp only [runUnpaid, h, hb, Bool.false_eq_true, if_false]

theorem runUnpaid_cons_open_break {σ : Type}
    (body : σ → Advance → Except PyErr (Option (σ × Advance)))
    (store : List Advance) (j : ℕ) (rest : List ℕ) (s : σ)
    (h : (store.getD j default).is_close = false)
    (hb : body s (store.getD j default) = .ok none) :
    runUnpaid body store (j :: rest) s = ⟨store, j :: rest, s, [j], none⟩ := by
  simp only [runUnpaid, h, hb, Bool.false_eq_true, if_false]

theorem runUnpaid_cons_open_step_closed {σ : Type}
    (body : σ → Advance → Except PyErr (Option (σ × Advance)))
    (store : List Advance) (j : ℕ) (rest : List ℕ) (s s' : σ) (a' : Advance)
    (h : (store.getD j default).is_close = false)
    (hb : body s (store.getD j default) = .ok (some (s', a')))
    (h' : a'.is_close = true) :
    runUnpaid body store (j :: rest) s =
      ⟨(runUnpaid body (store.set j a') rest s').store,
       (runUnpaid body (store.set j a') rest s').unpaid,
       (runUnpaid body (store.set j a') rest s').state,
       j :: (runUnpaid body (store.set j a') rest s').yielded,
       (runUnpaid body (store.set j a') rest s').err⟩ := by
  simp only [runUnpaid, h, hb, h', Bool.false_eq_true, if_false, if_true]

theorem runUnpaid_cons_open_step_open {σ : Type}
    (body : σ → Advance → Except PyErr (Option (σ × Advance)))
    (store : List Advance) (j : ℕ) (rest : List ℕ) (s s' : σ) (a' : Advance)
    (h : (store.getD j default).is_close = false)
    (hb : body s (store.getD j default) = .ok (some (s', a')))
    (h' : a'.is_close = false) :
    runUnpaid body store (j :: rest) s =
      ⟨(runUnpaid body (store.set j a') rest s').store,
       j :: (runUnpaid body (store.set j a') rest s').unpaid,
       (runUnpaid body (store.set j a') rest s').state,
       j :: (runUnpaid body (store.set j a') rest s').yielded,
       (runUnpaid body (store.set j a') rest s').err⟩ := by
  simp only [runUnpaid, h, hb, h', Bool.false_eq_true, if_false]

/-! ### List helpers -/

theorem list_set_getD {α : Type} (l : List α) (j : ℕ) (d : α) :
    l.set j (l.getD j d) = l := by
  induction l generalizing j with
  | nil => rfl
  | cons x xs ih =>
    cases j with
    | zero => simp [List.getD]
    | succ n => simpa [List.getD] using ih n

theorem getD_set_ne {α : Type} (l : List α) (i j : ℕ) (a d : α) (h : i ≠ j) :
    (l.set i a).getD j d = l.getD j d := by
  induction l generalizing i j with
  | nil => rfl
  | cons x xs ih =>
    cases i with
    | zero =>
      cases j with
      | zero => exact absurd rfl h
      | succ m => simp [List.getD]
    | succ n =>
      cases j with
      | zero => simp [List.getD]
      | succ m => simpa [List.getD] using ih n m (by omega)

theorem getD_set_self {α : Type} (l : List α) (i : ℕ) (a d : α) (h : i < l.length) :
    (l.set i a).getD i d = a := by
  induction l generalizing i with
  | nil => simp at h
  | cons x xs ih =>
    cases i with
    | zero => simp [List.getD]
    | succ n => simpa [List.getD] using ih n (by simpa using h)

/-! ### The traversal on pure (read-only, never-breaking) bodies -/

/-- Running the generator with a body that never mutates the yielded
advance, never breaks and never raises (the shape of the two read
operations) only folds the consumer state over the open advances, in
order: the arena and the unpaid list are returned unchanged. -/
theorem runUnpaid_pure {σ : Type} (g : σ → Advance → σ) (store : List Advance) :
    ∀ (up : List ℕ) (s : σ),
      runUnpaid (fun s a => .ok (some (g s a, a))) store up s =
        ⟨store, up,
         up.foldl (fun acc j => if (store.getD j default).is_close then acc
                                else g acc (store.getD j default)) s,
         up.filter (fun j => !(store.getD j default).is_close), none⟩ := by
  intro up
  induction up with
  | nil => intro s; rfl
  | cons j rest ih =>
    intro s
    cases hc : (store.getD j default).is_close with
    | true =>
      rw [runUnpaid_cons_closed _ _ _ _ _ hc, ih s]
      simp [hc, -List.getD_eq_getElem?_getD]
    | false =>
      rw [runUnpaid_cons_open_step_open _ _ _ _ _ _ _ hc rfl hc,
        list_set_getD, ih]
      simp [hc, -List.getD_eq_getElem?_getD]

theorem foldl_skip_add (f : ℕ → ℚ) (p : ℕ → Bool) :
    ∀ (up : List ℕ) (acc : ℚ),
      up.foldl (fun acc j => if p j then acc else acc + f j) acc
        = acc + (((up.filter (fun j => !p j)).map f).sum) := by
  intro up
  induction up with
  | nil => simp
  | cons j rest ih =>
    intro acc
    cases h : p j with
    | true => simp [h, ih]
    | false => simp [h, ih (acc + f j), add_assoc]

/-- C3: the ledger-level `interestPayableBalance(toDate)` is the sum,
over the open advances of the unpaid working list in order, of the
advance-level `interestPayableBalance` evaluated at `toDate + 1`, which
makes `toDate` an inclusive cutoff; in particular, for a single advance
created 2024-01-01 (ordinal 738886) with remaining 100 and rate 0.01,
the value at "2024-01-01" is 1, not 0. -/
theorem C3_interest_payable_inclusive_cutoff :
    (∀ (b : Balance) (to_date : ℤ),
      (b.interest_payable_balance to_date).2 =
        (((b.unpaid_advances.map (fun j => b.advances.getD j default)).filter
            (fun a => !a.is_close)).map
          (fun a => a.interest_payable_balance (to_date + 1))).sum)
    ∧ ((⟨[⟨738886, 100, 100, 1/100, 738886⟩], [0], [], 0, 1/100, 0⟩ :
          Balance).interest_payable_balance 738886).2 = 1 := by
  constructor
  · intro b to_date
    show (Balance.interest_payable_balance b to_date).2 = _
    unfold Balance.interest_payable_balance
    rw [runUnpaid_pure]
    show List.foldl _ 0 b.unpaid_advances = _
    rw [foldl_skip_add
      (fun j => (b.advances.getD j default).interest_payable_balance (to_date + 1))
      (fun j => (b.advances.getD j default).is_close) b.unpaid_advances 0]
    rw [List.filter_map, List.map_map]
    simp [Function.comp_def]
  · norm_num [Balance.interest_payable_balance, runUnpaid, Advance.is_close,
      Advance.interest_payable_balance, Advance.days_from_last_interest_payment,
      Advance.interest_by_day]

/-! ### Structural facts about the traversal, for any loop body -/

/-- The default (out-of-range) advance is closed. -/
theorem default_advance_is_close : (default : Advance).is_close = true := rfl

/-- The yielded indices form a sublist of the unpaid list: they come in
the working list's order and none is yielded twice. -/
theorem runUnpaid_yielded_sublist {σ : Type}
    (body : σ → Advance → Except PyErr (Option (σ × Advance))) :
    ∀ (up : List ℕ) (store : List Advance) (s : σ),
      (runUnpaid body store up s).yielded.Sublist up := by
  intro up
  induction up with
  | nil => intro store s; rw [runUnpaid_nil]
  | cons j rest ih =>
    intro store s
    cases hc : (store.getD j default).is_close with
    | true =>
      rw [runUnpaid_cons_closed _ _ _ _ _ hc]
      exact List.Sublist.cons j (ih store s)
    | false =>
      cases hb : body s (store.getD j default) with
      | error e =>
        rw [runUnpaid_cons_open_error _ _ _ _ _ _ hc hb]
        exact List.Sublist.cons₂ j (List.nil_sublist rest)
      | ok o =>
        cases o with
        | none =>
          rw [runUnpaid_cons_open_break _ _ _ _ _ hc hb]
          exact List.Sublist.cons₂ j (List.nil_sublist rest)
        | some p =>
          obtain ⟨s', a'⟩ := p
          cases h' : a'.is_close with
          | true =>
            rw [runUnpaid_cons_open_step_closed _ _ _ _ _ _ _ hc hb h']
            exact List.Sublist.cons₂ j (ih _ s')
          | false =>
            rw [runUnpaid_cons_open_step_open _ _ _ _ _ _ _ hc hb h']
            exact List.Sublist.cons₂ j (ih _ s')

/-- The final unpaid list is a sublist of the original one: the
traversal only ever removes entries and never reorders them. -/
theorem runUnpaid_unpaid_sublist {σ : Type}
    (body : σ → Advance → Except PyErr (Option (σ × Advance))) :
    ∀ (up : List ℕ) (store : List Advance) (s : σ),
      (runUnpaid body store up s).unpaid.Sublist up := by
  intro up
  induction up with
  | nil => intro store s; rw [runUnpaid_nil]
  | cons j rest ih =>
    intro store s
    cases hc : (store.getD j default).is_close with
    | true =>
      rw [runUnpaid_cons_closed _ _ _ _ _ hc]
      exact List.Sublist.cons₂ j (ih store s)
    | false =>
      cases hb : body s (store.getD j default) with
      | error e =>
        rw [runUnpaid_cons_open_error _ _ _ _ _ _ hc hb]
      | ok o =>
        cases o with
        | none =>
          rw [runUnpaid_cons_open_break _ _ _ _ _ hc hb]
        | some p =>
          obtain ⟨s', a'⟩ := p
          cases h' : a'.is_close with
          | true =>
            rw [runUnpaid_cons_open_step_closed _ _ _ _ _ _ _ hc hb h']
            exact List.Sublist.cons j (ih _ s')
          | false =>
            rw [runUnpaid_cons_open_step_open _ _ _ _ _ _ _ hc hb h']
            exact List.Sublist.cons₂ j (ih _ s')

/-- No entry of the working list is lost: every index is either yielded
or still present when the traversal ends, so a removal never makes the
traversal skip an unvisited entry. -/
theorem runUnpaid_cover {σ : Type}
    (body : σ → Advance → Except PyErr (Option (σ × Advance))) :
    ∀ (up : List ℕ) (store : List Advance) (s : σ) (j0 : ℕ), j0 ∈ up →
      j0 ∈ (runUnpaid body store up s).yielded ∨
        j0 ∈ (runUnpaid body store up s).unpaid := by
  intro up
  induction up with
  | nil => intro store s j0 h; cases h
  | cons j rest ih =>
    intro store s j0 hmem
    cases hc : (store.getD j default).is_close with
    | true =>
      rw [runUnpaid_cons_closed _ _ _ _ _ hc]
      rcases List.mem_cons.mp hmem with rfl | hmem'
      · exact Or.inr (List.mem_cons_self _ _)
      · rcases ih store s j0 hmem' with h | h
        · exact Or.inl h
        · exact Or.inr (List.mem_cons_of_mem _ h)
    | false =>
      cases hb : body s (store.getD j default) with
      | error e =>
        rw [runUnpaid_cons_open_error _ _ _ _ _ _ hc hb]
        exact Or.inr hmem
      | ok o =>
        cases o with
        | none =>
          rw [runUnpaid_cons_open_break _ _ _ _ _ hc hb]
          exact Or.inr hmem
        | some p =>
          obtain ⟨s', a'⟩ := p
          cases h' : a'.is_close with
          | true =>
            rw [runUnpaid_cons_open_step_closed _ _ _ _ _ _ _ hc hb h']
            rcases List.mem_cons.mp hmem with rfl | hmem'
            · exact Or.inl (List.mem_cons_self _ _)
            · rcases ih _ s' j0 hmem' with h | h
              · exact Or.inl (List.mem_cons_of_mem _ h)
              · exact Or.inr h
          | false =>
            rw [runUnpaid_cons_open_step_open _ _ _ _ _ _ _ hc hb h']
            rcases List.mem_cons.mp hmem with rfl | hmem'
            · exact Or.inl (List.mem_cons_self _ _)
            · rcases ih _ s' j0 hmem' with h | h
              · exact Or.inl (List.mem_cons_of_mem _ h)
              · exact Or.inr (List.mem_cons_of_mem _ h)

/-- An advance that is already closed when the traversal reaches it is
skipped — never yielded — but stays in the working list. -/
theorem runUnpaid_closed_kept {σ : Type}
    (body : σ → Advance → Except PyErr (Option (σ × Advance))) :
    ∀ (up : List ℕ) (store : List Advance) (s : σ), up.Nodup →
      ∀ j0 ∈ up, (store.getD j0 default).is_close = true →
        j0 ∉ (runUnpaid body store up s).yielded ∧
          j0 ∈ (runUnpaid body store up s).unpaid := by
  intro up
  induction up with
  | nil => intro store s _ j0 h; cases h
  | cons j rest ih =>
    intro store s hnd j0 hmem hc0
    have hj : j ∉ rest := (List.nodup_cons.mp hnd).1
    have hrest : rest.Nodup := (List.nodup_cons.mp hnd).2
    rcases List.mem_cons.mp hmem with rfl | hmem'
    · rw [runUnpaid_cons_closed _ _ _ _ _ hc0]
      refine ⟨fun hy => ?_, List.mem_cons_self _ _⟩
      exact hj ((runUnpaid_yielded_sublist body rest store s).subset hy)
    · have hne : j0 ≠ j := fun h => hj (h ▸ hmem')
      cases hc : (store.getD j default).is_close with
      | true =>
        rw [runUnpaid_cons_closed _ _ _ _ _ hc]
        obtain ⟨h1, h2⟩ := ih store s hrest j0 hmem' hc0
        exact ⟨h1, List.mem_cons_of_mem _ h2⟩
      | false =>
        cases hb : body s (store.getD j default) with
        | error e =>
          rw [runUnpaid_cons_open_error _ _ _ _ _ _ hc hb]
          refine ⟨fun hy => ?_, List.mem_cons_of_mem _ hmem'⟩
          rcases List.mem_singleton.mp hy with rfl
          exact hne rfl
        | ok o =>
          cases o with
          | none =>
            rw [runUnpaid_cons_open_break _ _ _ _ _ hc hb]
            refine ⟨fun hy => ?_, List.mem_cons_of_mem _ hmem'⟩
            rcases List.mem_singleton.mp hy with rfl
            exact hne rfl
          | some p =>
            obtain ⟨s', a'⟩ := p
            have hc0' : ((store.set j a').getD j0 default).is_close = true := by
              rw [getD_set_ne _ _ _ _ _ (Ne.symm hne)]
              exact hc0
            cases h' : a'.is_close with
            | true =>
              rw [runUnpaid_cons_open_step_closed _ _ _ _ _ _ _ hc hb h']
              obtain ⟨h1, h2⟩ := ih _ s' hrest j0 hmem' hc0'
              refine ⟨fun hy => ?_, h2⟩
              rcases List.mem_cons.mp hy with rfl | hy'
              · exact hne rfl
              · exact h1 hy'
            | false =>
              rw [runUnpaid_cons_open_step_open _ _ _ _ _ _ _ hc hb h']
              obtain ⟨h1, h2⟩ := ih _ s' hrest j0 hmem' hc0'
              refine ⟨fun hy => ?_, List.mem_cons_of_mem _ h2⟩
              rcases List.mem_cons.mp hy with rfl | hy'
              · exact hne rfl
              · exact h1 hy'

/-- Indices not on the unpaid list are never written by the traversal. -/
theorem runUnpaid_store_not_mem {σ : Type}
    (body : σ → Advance → Except PyErr (Option (σ × Advance))) :
    ∀ (up : List ℕ) (store : List Advance) (s : σ) (i : ℕ), i ∉ up →
      (runUnpaid body store up s).store.getD i default = store.getD i default := by
  intro up
  induction up with
  | nil => intro store s i _; rw [runUnpaid_nil]
  | cons j rest ih =>
    intro store s i hmem
    have hne : i ≠ j := fun h => hmem (h ▸ List.mem_cons_self _ _)
    have hrest : i ∉ rest := fun h => hmem (List.mem_cons_of_mem _ h)
    cases hc : (store.getD j default).is_close with
    | true =>
      rw [runUnpaid_cons_closed _ _ _ _ _ hc]
      exact ih store s i hrest
    | false =>
      cases hb : body s (store.getD j default) with
      | error e =>
        rw [runUnpaid_cons_open_error _ _ _ _ _ _ hc hb]
      | ok o =>
        cases o with
        | none =>
          rw [runUnpaid_cons_open_break _ _ _ _ _ hc hb]
        | some p =>
          obtain ⟨s', a'⟩ := p
          have hset : (store.set j a').getD i default = store.getD i default :=
            getD_set_ne _ _ _ _ _ (Ne.symm hne)
          cases h' : a'.is_close with
          | true =>
            rw [runUnpaid_cons_open_step_closed _ _ _ _ _ _ _ hc hb h']
            rw [ih _ s' i hrest, hset]
          | false =>
            rw [runUnpaid_cons_open_step_open _ _ _ _ _ _ _ hc hb h']
            rw [ih _ s' i hrest, hset]

/-- An index is removed from the working list only because its advance
was closed by the loop body while being processed: any removed index
holds a closed advance in the final arena. -/
theorem runUnpaid_removed_closed {σ : Type}
    (body : σ → Advance → Except PyErr (Option (σ × Advance))) :
    ∀ (up : List ℕ) (store : List Advance) (s : σ), up.Nodup →
      ∀ j0 ∈ up, j0 ∉ (runUnpaid body store up s).unpaid →
        ((runUnpaid body store up s).store.getD j0 default).is_close = true := by
  intro up
  induction up with
  | nil => intro store s _ j0 h; cases h
  | cons j rest ih =>
    intro store s hnd j0 hmem hnot
    have hj : j ∉ rest := (List.nodup_cons.mp hnd).1
    have hrest : rest.Nodup := (List.nodup_cons.mp hnd).2
    cases hc : (store.getD j default).is_close with
    | true =>
      rw [runUnpaid_cons_closed _ _ _ _ _ hc] at hnot ⊢
      have hne : j0 ≠ j := fun h => hnot (h ▸ List.mem_cons_self _ _)
      have hmem' : j0 ∈ rest := by
        rcases List.mem_cons.mp hmem with rfl | h
        · exact absurd rfl hne
        · exact h
      exact ih store s hrest j0 hmem' (fun h => hnot (List.mem_cons_of_mem _ h))
    | false =>
      cases hb : body s (store.getD j default) with
      | error e =>
        rw [runUnpaid_cons_open_error _ _ _ _ _ _ hc hb] at hnot
        exact absurd hmem hnot
      | ok o =>
        cases o with
        | none =>
          rw [runUnpaid_cons_open_break _ _ _ _ _ hc hb] at hnot
          exact absurd hmem hnot
        | some p =>
          obtain ⟨s', a'⟩ := p
          have hjlen : j < store.length := by
            by_contra hge
            have : store.getD j default = default := by
              rw [List.getD_eq_default]
              omega
            rw [this, default_advance_is_close] at hc
            cases hc
          cases h' : a'.is_close with
          | true =>
            rw [runUnpaid_cons_open_step_closed _ _ _ _ _ _ _ hc hb h'] at hnot ⊢
            by_cases hne : j0 = j
            · subst hne
              rw [runUnpaid_store_not_mem body rest _ s' j0 hj,
                getD_set_self _ _ _ _ hjlen]
              exact h'
            · have hmem' : j0 ∈ rest := by
                rcases List.mem_cons.mp hmem with rfl | h
                · exact absurd rfl hne
                · exact h
              exact ih _ s' hrest j0 hmem' hnot
          | false =>
            rw [runUnpaid_cons_open_step_open _ _ _ _ _ _ _ hc hb h'] at hnot ⊢
            have hne : j0 ≠ j := fun h => hnot (h ▸ List.mem_cons_self _ _)
            have hmem' : j0 ∈ rest := by
              rcases List.mem_cons.mp hmem with rfl | h
              · exact absurd rfl hne
              · exact h
            exact ih _ s' hrest j0 hmem' (fun h => hnot (List.mem_cons_of_mem _ h))

/-- An advance that becomes closed while being processed is removed:
if an index was yielded and its advance is closed in the final arena,
it is no longer on the unpaid list.  (A yielded index whose processing
left the advance open keeps its open advance in the final arena, by
`runUnpaid_store_not_mem`; so a yielded-and-finally-closed index can
only be one the loop body closed, and those the traversal removes.) -/
theorem runUnpaid_yielded_closed_removed {σ : Type}
    (body : σ → Advance → Except PyErr (Option (σ × Advance))) :
    ∀ (up : List ℕ) (store : List Advance) (s : σ), up.Nodup →
      ∀ j0 ∈ up, j0 ∈ (runUnpaid body store up s).yielded →
        ((runUnpaid body store up s).store.getD j0 default).is_close = true →
        j0 ∉ (runUnpaid body store up s).unpaid := by
  intro up
  induction up with
  | nil => intro store s _ j0 h; cases h
  | cons j rest ih =>
    intro store s hnd j0 hmem hy hcl
    have hj : j ∉ rest := (List.nodup_cons.mp hnd).1
    have hrest : rest.Nodup := (List.nodup_cons.mp hnd).2
    cases hc : (store.getD j default).is_close with
    | true =>
      rw [runUnpaid_cons_closed _ _ _ _ _ hc] at hy hcl ⊢
      by_cases hne : j0 = j
      · subst hne
        exact absurd ((runUnpaid_yielded_sublist body rest store s).subset hy) hj
      · have hmem' : j0 ∈ rest := by
          rcases List.mem_cons.mp hmem with rfl | h
          · exact absurd rfl hne
          · exact h
        intro hin
        rcases List.mem_cons.mp hin with rfl | hin'
        · exact hne rfl
        · exact ih store s hrest j0 hmem' hy hcl hin'
    | false =>
      cases hb : body s (store.getD j default) with
      | error e =>
        rw [runUnpaid_cons_open_error _ _ _ _ _ _ hc hb] at hy hcl
        rcases List.mem_singleton.mp hy with rfl
        rw [hcl] at hc
        cases hc
      | ok o =>
        cases o with
        | none =>
          rw [runUnpaid_cons_open_break _ _ _ _ _ hc hb] at hy hcl
          rcases List.mem_singleton.mp hy with rfl
          rw [hcl] at hc
          cases hc
        | some p =>
          obtain ⟨s', a'⟩ := p
          have hjlen : j < store.length := by
            by_contra hge
            rw [List.getD_eq_default _ _ (not_lt.mp hge), default_advance_is_close] at hc
            cases hc
          cases h' : a'.is_close with
          | true =>
            rw [runUnpaid_cons_open_step_closed _ _ _ _ _ _ _ hc hb h'] at hy hcl ⊢
            by_cases hne : j0 = j
            · subst hne
              intro hin
              exact hj ((runUnpaid_unpaid_sublist body rest _ s').subset hin)
            · have hmem' : j0 ∈ rest := by
                rcases List.mem_cons.mp hmem with rfl | h
                · exact absurd rfl hne
                · exact h
              have hy' : j0 ∈ (runUnpaid body (store.set j a') rest s').yielded := by
                rcases List.mem_cons.mp hy with rfl | h
                · exact absurd rfl hne
                · exact h
              exact ih _ s' hrest j0 hmem' hy' hcl
          | false =>
            rw [runUnpaid_cons_open_step_open _ _ _ _ _ _ _ hc hb h'] at hy hcl ⊢
            by_cases hne : j0 = j
            · subst hne
              rw [runUnpaid_store_not_mem body rest _ s' j0 hj,
                getD_set_self _ _ _ _ hjlen, h'] at hcl
              cases hcl
            · have hmem' : j0 ∈ rest := by
                rcases List.mem_cons.mp hmem with rfl | h
                · exact absurd rfl hne
                · exact h
              have hy' : j0 ∈ (runUnpaid body (store.set j a') rest s').yielded := by
                rcases List.mem_cons.mp hy with rfl | h
                · exact absurd rfl hne
                · exact h
              intro hin
              rcases List.mem_cons.mp hin with rfl | hin'
              · exact hne rfl
              · exact ih _ s' hrest j0 hmem' hy' hcl hin'

/-- C4 counterexample: an advance that is already closed when the
traversal reaches it is skipped but NOT removed from the working set.
A ledger whose single advance is closed (remaining 0) still has that
advance in `unpaidAdvances` after a full traversal (here a complete
`advancesBalance` read, which consumes the generator): the claim's
"skipped and removed from the working set permanently" fails. -/
theorem C4_closed_not_removed_counterexample :
    ((⟨[⟨738886, 5, 0, 1/100, 738886⟩], [0], [], 0, 1/100, 0⟩ :
        Balance).advances_balance).1.unpaid_advances = [0]
    ∧ ((⟨[⟨738886, 5, 0, 1/100, 738886⟩], [0], [], 0, 1/100, 0⟩ :
        Balance).advances_balance).2 = 0 := by
  constructor <;> norm_num [Balance.advances_balance, runUnpaid, Advance.is_close]

/-- C4 as amended: for any loop body, the `unpaidAdvances` traversal
yields advances in working-list order (the yielded indices are a
nodup sublist of the working list, so no advance is yielded twice and
order is preserved); every index is either yielded or still present at
the end (no removal skips a still-open advance); an advance already
closed when reached is skipped but REMAINS in the working set (this is
where the original claim fails); an advance that becomes closed while
being processed is removed before the traversal continues (a yielded
index whose advance is closed at the end is off the working list), and
conversely only such advances are removed (a removed index holds a
closed advance in the final arena). -/
theorem C4_traversal_amended {σ : Type}
    (body : σ → Advance → Except PyErr (Option (σ × Advance)))
    (store : List Advance) (up : List ℕ) (s : σ) (hnd : up.Nodup) :
    (runUnpaid body store up s).yielded.Sublist up
    ∧ (runUnpaid body store up s).yielded.Nodup
    ∧ (runUnpaid body store up s).unpaid.Sublist up
    ∧ (∀ j ∈ up, j ∈ (runUnpaid body store up s).yielded ∨
        j ∈ (runUnpaid body store up s).unpaid)
    ∧ (∀ j ∈ up, (store.getD j default).is_close = true →
        j ∉ (runUnpaid body store up s).yielded ∧
          j ∈ (runUnpaid body store up s).unpaid)
    ∧ (∀ j ∈ up, j ∉ (runUnpaid body store up s).unpaid →
        ((runUnpaid body store up s).store.getD j default).is_close = true)
    ∧ (∀ j ∈ up, j ∈ (runUnpaid body store up s).yielded →
        ((runUnpaid body store up s).store.getD j default).is_close = true →
        j ∉ (runUnpaid body store up s).unpaid) :=
  ⟨runUnpaid_yielded_sublist body up store s,
   hnd.sublist (runUnpaid_yielded_sublist body up store s),
   runUnpaid_unpaid_sublist body up store s,
   fun j hj => runUnpaid_cover body up store s j hj,
   fun j hj hc => runUnpaid_closed_kept body up store s hnd j hj hc,
   fun j hj hn => runUnpaid_removed_closed body up store s hnd j hj hn,
   fun j hj hy hc => runUnpaid_yielded_closed_removed body up store s hnd j hj hy hc⟩

/-- Store for the amended-C4 witness (the spec's 3-advance traversal
scenario): A owes 2, B owes 3, C owes 10. -/
def capitalScenarioStore : List Advance :=
  [⟨738886, 2, 2, 1/100, 738886⟩, ⟨738886, 3, 3, 1/100, 738886⟩,
   ⟨738886, 10, 10, 1/100, 738886⟩]

/-- Witness for the amended C4: a capital sweep with 6 of cash over the
3-advance scenario closes A and B mid-traversal and pays C down to 9;
the yields are exactly [0, 1, 2] (no skip, no double visit), only the
still-open C remains in the working list, and the removal conjunct of
the theorem yields that the mid-sweep-closed A is off the list. -/
theorem C4_traversal_amended_witness :
    ([0, 1, 2] : List ℕ).Nodup
    ∧ (runUnpaid capitalBody capitalScenarioStore [0, 1, 2] 6).yielded.Sublist [0, 1, 2]
    ∧ (runUnpaid capitalBody capitalScenarioStore [0, 1, 2] 6).unpaid.Sublist [0, 1, 2]
    ∧ (runUnpaid capitalBody capitalScenarioStore [0, 1, 2] 6).yielded = [0, 1, 2]
    ∧ (runUnpaid capitalBody capitalScenarioStore [0, 1, 2] 6).unpaid = [2]
    ∧ (0 : ℕ) ∉ (runUnpaid capitalBody capitalScenarioStore [0, 1, 2] 6).unpaid := by
  have h := C4_traversal_amended capitalBody capitalScenarioStore [0, 1, 2] 6 (by decide)
  have hy : (runUnpaid capitalBody capitalScenarioStore [0, 1, 2] 6).yielded = [0, 1, 2] := by
    norm_num [runUnpaid, capitalBody, capitalScenarioStore, Advance.pay_capital,
      Advance.is_close]
  have hu : (runUnpaid capitalBody capitalScenarioStore [0, 1, 2] 6).unpaid = [2] := by
    norm_num [runUnpaid, capitalBody, capitalScenarioStore, Advance.pay_capital,
      Advance.is_close]
  have hcl : ((runUnpaid capitalBody capitalScenarioStore [0, 1, 2] 6).store.getD 0
      default).is_close = true := by
    norm_num [runUnpaid, capitalBody, capitalScenarioStore, Advance.pay_capital,
      Advance.is_close]
  exact ⟨by decide, h.1, h.2.2.1, hy, hu,
    h.2.2.2.2.2.2 0 (by decide) (by rw [hy]; decide) hcl⟩

/-! ### Failure behaviour of `addPayment` on a malformed date string -/

/-- Paying interest with a malformed date string raises `ValueError`
from the date parse before any field of the advance is touched. -/
theorem pay_interest_invalid (a : Advance) (amount : ℚ) :
    a.pay_interest amount .invalid = .error .valueError := rfl

/-- The interest sweep over a malformed date string never gets past its
first open advance with a nonzero balance: the arena, the unpaid list
and the consumer state come back unchanged whether it raises or not. -/
theorem runUnpaid_interest_invalid (s : ℚ × ℚ) :
    ∀ (up : List ℕ) (store : List Advance),
      (runUnpaid (interestBody .invalid) store up s).store = store
      ∧ (runUnpaid (interestBody .invalid) store up s).unpaid = up
      ∧ (runUnpaid (interestBody .invalid) store up s).state = s := by
  intro up
  induction up with
  | nil => intro store; rw [runUnpaid_nil]; exact ⟨rfl, rfl, rfl⟩
  | cons j rest ih =>
    intro store
    cases hc : (store.getD j default).is_close with
    | true =>
      rw [runUnpaid_cons_closed _ _ _ _ _ hc]
      obtain ⟨h1, h2, h3⟩ := ih store
      exact ⟨h1, by rw [h2], h3⟩
    | false =>
      by_cases hz : s.1 = 0
      · have hb : interestBody .invalid s (store.getD j default) = .ok none := by
          unfold interestBody
          rw [if_pos hz]
        rw [runUnpaid_cons_open_break _ _ _ _ _ hc hb]
        exact ⟨rfl, rfl, rfl⟩
      · have hb : interestBody .invalid s (store.getD j default) = .error .valueError := by
          unfold interestBody
          rw [if_neg hz, pay_interest_invalid]
        rw [runUnpaid_cons_open_error _ _ _ _ _ _ hc hb]
        exact ⟨rfl, rfl, rfl⟩

/-- If the interest sweep of a ledger raises on a malformed date string,
the ledger state it leaves behind is exactly the state it started from. -/
theorem Balance_pay_interest_invalid_error (b : Balance) (b' : Balance)
    (h : b.pay_interest .invalid = .error b') : b' = b := by
  unfold Balance.pay_interest at h
  obtain ⟨h1, h2, h3⟩ :=
    runUnpaid_interest_invalid (b.balance, b.interest_paid) b.unpaid_advances b.advances
  dsimp only at h
  split at h
  · injection h with h'
    subst h'
    rw [h1, h2, h3]
  · cases h

/-- C9 counterexample: `addPayment` is not all-or-nothing.  On a ledger
with one open advance, a payment of 10 with a malformed date string
raises (the date parse happens inside the interest sweep), yet the
failed call has already appended the Payment record and increased the
cash buffer from 0 to 10. -/
theorem C9_not_all_or_nothing_counterexample :
    (⟨[⟨738886, 100, 100, 1/100, 738886⟩], [0], [], 0, 1/100, 0⟩ :
        Balance).add_payment .invalid 10
      = .error ⟨[⟨738886, 100, 100, 1/100, 738886⟩], [0], [⟨.invalid, 10⟩], 0, 1/100, 10⟩
    ∧ ([(⟨.invalid, 10⟩ : Payment)] ≠ ([] : List Payment))
    ∧ ((10 : ℚ) ≠ 0) := by
  refine ⟨?_, by simp, by norm_num⟩
  norm_num [Balance.add_payment, Balance.pay_interest, runUnpaid, interestBody,
    Advance.pay_interest, fromisoformat, Advance.is_close]

/-- C9 as amended: when `addPayment` fails because the date string is
malformed, the mutations already performed stay: the Payment record is
appended and the cash buffer grows by the amount, while the advances,
the unpaid working set, the interest total and the rate are unchanged. -/
theorem C9_invalid_date_mutation_amended (b : Balance) (amount : ℚ) (b' : Balance)
    (h : b.add_payment .invalid amount = .error b') :
    b'.advances = b.advances
    ∧ b'.unpaid_advances = b.unpaid_advances
    ∧ b'.interest_paid = b.interest_paid
    ∧ b'.payments = b.payments ++ [⟨.invalid, amount⟩]
    ∧ b'.balance = b.balance + amount
    ∧ b'.daily_interest_rate = b.daily_interest_rate := by
  unfold Balance.add_payment at h
  dsimp only at h
  split at h
  case _ b2 heq =>
    injection h with h'
    subst h'
    have := Balance_pay_interest_invalid_error _ _ heq
    subst this
    exact ⟨rfl, rfl, rfl, rfl, rfl, rfl⟩
  case _ => cases h

/-- Witness for the amended C9 at the counterexample's concrete input. -/
theorem C9_invalid_date_mutation_amended_witness :
    ((⟨[⟨738886, 100, 100, 1/100, 738886⟩], [0], [⟨.invalid, 10⟩], 0, 1/100, 10⟩ :
        Balance).advances
      = (⟨[⟨738886, 100, 100, 1/100, 738886⟩], [0], [], 0, 1/100, 0⟩ : Balance).advances)
    ∧ ((⟨[⟨738886, 100, 100, 1/100, 738886⟩], [0], [⟨.invalid, 10⟩], 0, 1/100, 10⟩ :
        Balance).payments
      = (⟨[⟨738886, 100, 100, 1/100, 738886⟩], [0], [], 0, 1/100, 0⟩ : Balance).payments
        ++ [⟨.invalid, 10⟩])
    ∧ ((⟨[⟨738886, 100, 100, 1/100, 738886⟩], [0], [⟨.invalid, 10⟩], 0, 1/100, 10⟩ :
        Balance).balance
      = (⟨[⟨738886, 100, 100, 1/100, 738886⟩], [0], [], 0, 1/100, 0⟩ : Balance).balance
        + 10) := by
  have heq : (⟨[⟨738886, 100, 100, 1/100, 738886⟩], [0], [], 0, 1/100, 0⟩ :
      Balance).add_payment .invalid 10
      = .error ⟨[⟨738886, 100, 100, 1/100, 738886⟩], [0], [⟨.invalid, 10⟩], 0, 1/100, 10⟩ := by
    norm_num [Balance.add_payment, Balance.pay_interest, runUnpaid, interestBody,
      Advance.pay_interest, fromisoformat, Advance.is_close]
  have h := C9_invalid_date_mutation_amended _ _ _ heq
  exact ⟨h.1, h.2.2.2.1, h.2.2.2.2.1⟩

/-- C2: the interest sweep runs before the capital sweep.  On a ledger
holding exactly one open advance and no spare cash, a payment equal to
the advance's accrued interest at the payment date is consumed entirely
by the interest sweep: the advance's `remainingAmount` is unchanged and
the ledger's `interestPaid` total strictly increases. -/
theorem C2_interest_sweep_before_capital (b : Balance) (a : Advance) (d : ℤ) (b' : Balance)
    (hstore : b.advances = [a]) (hup : b.unpaid_advances = [0])
    (hopen : a.is_close = false) (hbal : b.balance = 0)
    (hpos : 0 < a.interest_payable_balance d)
    (h : b.add_payment (.valid d) (a.interest_payable_balance d) = .ok b') :
    (b'.advances.getD 0 default).remaining_amount = a.remaining_amount
    ∧ b.interest_paid < b'.interest_paid := by
  obtain ⟨advs, up, P, ip, rate, bal⟩ := b
  dsimp only at hstore hup hbal h ⊢
  subst hstore hup hbal
  set I := a.interest_payable_balance d with hI
  have hIne : (0 : ℚ) + I ≠ 0 := by
    intro hcon
    rw [zero_add] at hcon
    exact hpos.ne' hcon
  have hbody : interestBody (.valid d) (0 + I, ip) a
      = .ok (some (((0 + I) - I, ip + I), { a with last_interest_payment_date := d })) := by
    unfold interestBody
    rw [if_neg hIne]
    unfold Advance.pay_interest
    simp only [fromisoformat]
    rw [if_pos (by linarith : a.interest_payable_balance d ≤ 0 + I)]
  have hopen' : ({ a with last_interest_payment_date := d } : Advance).is_close = false :=
    hopen
  have hopenG : (([a] : List Advance).getD 0 default).is_close = false := hopen
  have hbodyG : interestBody (.valid d) (0 + I, ip) (([a] : List Advance).getD 0 default)
      = .ok (some (((0 + I) - I, ip + I), { a with last_interest_payment_date := d })) :=
    hbody
  have hrun : runUnpaid (interestBody (.valid d)) [a] [0] (0 + I, ip)
      = ⟨[{ a with last_interest_payment_date := d }], [0], ((0 + I) - I, ip + I),
         [0], none⟩ := by
    rw [runUnpaid_cons_open_step_open _ _ _ _ _ _ _ hopenG hbodyG hopen']
    rfl
  have hbody2 : capitalBody ((0 + I) - I) { a with last_interest_payment_date := d }
      = .ok none := by
    unfold capitalBody
    rw [if_pos (by ring : (0 : ℚ) + I - I = 0)]
  have hrun2 : runUnpaid capitalBody [{ a with last_interest_payment_date := d }] [0]
      ((0 + I) - I)
      = ⟨[{ a with last_interest_payment_date := d }], [0], (0 + I) - I, [0], none⟩ :=
    runUnpaid_cons_open_break _ _ _ _ _ hopen' hbody2
  have hcomp : Balance.add_payment ⟨[a], [0], P, ip, rate, 0⟩ (.valid d) I
      = .ok ⟨[{ a with last_interest_payment_date := d }], [0],
             P ++ [⟨.valid d, I⟩], ip + I, rate, (0 + I) - I⟩ := by
    unfold Balance.add_payment Balance.pay_interest Balance.pay_capital
    dsimp only
    rw [hrun]
    dsimp only
    rw [hrun2]
  rw [hcomp] at h
  injection h with h'
  subst h'
  constructor
  · rfl
  · dsimp only
    linarith

/-- Witness for C2: one advance of 100 at rate 0.01, one day of accrued
interest (1) paid exactly on 2024-01-02 (738887): remaining stays 100,
interestPaid goes from 0 to 1. -/
theorem C2_interest_sweep_before_capital_witness :
    ((⟨[⟨738886, 100, 100, 1/100, 738887⟩], [0], [⟨.valid 738887, 1⟩], 1, 1/100, 0⟩ :
          Balance).advances.getD 0 default).remaining_amount
      = (⟨738886, 100, 100, 1/100, 738886⟩ : Advance).remaining_amount
    ∧ (⟨[⟨738886, 100, 100, 1/100, 738886⟩], [0], [], 0, 1/100, 0⟩ :
          Balance).interest_paid
      < (⟨[⟨738886, 100, 100, 1/100, 738887⟩], [0], [⟨.valid 738887, 1⟩], 1, 1/100, 0⟩ :
          Balance).interest_paid := by
  have heq : (⟨[⟨738886, 100, 100, 1/100, 738886⟩], [0], [], 0, 1/100, 0⟩ :
      Balance).add_payment (.valid 738887)
        ((⟨738886, 100, 100, 1/100, 738886⟩ : Advance).interest_payable_balance 738887)
      = .ok ⟨[⟨738886, 100, 100, 1/100, 738887⟩], [0], [⟨.valid 738887, 1⟩], 1, 1/100, 0⟩ := by
    norm_num [Balance.add_payment, Balance.pay_interest, Balance.pay_capital, runUnpaid,
      interestBody, capitalBody, Advance.pay_interest, Advance.pay_capital, fromisoformat,
      Advance.interest_payable_balance, Advance.days_from_last_interest_payment,
      Advance.interest_by_day, Advance.is_close]
  exact C2_interest_sweep_before_capital _ _ 738887 _ rfl rfl
    (by norm_num [Advance.is_close]) rfl
    (by norm_num [Advance.interest_payable_balance,
      Advance.days_from_last_interest_payment, Advance.interest_by_day]) heq

/-! ### Facts feeding the ledger invariants -/

/-- A successful `pay_interest` never changes `remaining_amount`: it
only moves the last interest payment date. -/
theorem pay_interest_ok_remaining (a : Advance) (amount : ℚ) (pd : DateStr)
    (a' : Advance) (rest ip : ℚ) (h : a.pay_interest amount pd = .ok (a', rest, ip)) :
    a'.remaining_amount = a.remaining_amount := by
  cases pd with
  | invalid => cases h
  | valid d =>
    simp only [Advance.pay_interest, fromisoformat] at h
    by_cases hle : a.interest_payable_balance d ≤ amount
    · rw [if_pos hle] at h
      injection h with h
      injection h with h1 h2
      subst h1
      rfl
    · rw [if_neg hle] at h
      by_cases hz : a.interest_by_day = 0
      · rw [if_pos hz] at h
        cases h
      · rw [if_neg hz] at h
        injection h with h
        injection h with h1 h2
        subst h1
        rfl

/-- Two advances with the same remaining amount agree on closedness. -/
theorem is_close_congr (a b : Advance) (h : a.remaining_amount = b.remaining_amount) :
    a.is_close = b.is_close := by
  unfold Advance.is_close
  rw [h]

/-- `pay_capital` always leaves a non-negative remaining amount, from
any starting point: the result is clamped at 0. -/
theorem pay_capital_nonneg (a : Advance) (amount : ℚ) :
    0 ≤ (a.pay_capital amount).1.remaining_amount := by
  unfold Advance.pay_capital
  dsimp only
  split
  · exact le_refl 0
  · dsimp only
    linarith [not_lt.mp (by assumption : ¬ a.remaining_amount - amount < 0)]

/-- If `pay_capital` leaves the advance open, the whole amount was
consumed: the returned rest is 0. -/
theorem pay_capital_open_rest (a : Advance) (amount : ℚ)
    (h : (a.pay_capital amount).1.is_close = false) : (a.pay_capital amount).2 = 0 := by
  unfold Advance.pay_capital at h ⊢
  dsimp only at h ⊢
  split at h
  · simp [Advance.is_close] at h
  · rw [if_neg (by assumption)]

/-- Setting an index past the end of a list is a no-op. -/
theorem list_set_oob {α : Type} (l : List α) (j : ℕ) (a : α) (h : l.length ≤ j) :
    l.set j a = l := by
  induction l generalizing j with
  | nil => rfl
  | cons x xs ih =>
    cases j with
    | zero => simp at h
    | succ n => simpa using ih n (by simpa using h)

/-- The traversal never changes the length of the arena. -/
theorem runUnpaid_store_length {σ : Type}
    (body : σ → Advance → Except PyErr (Option (σ × Advance))) :
    ∀ (up : List ℕ) (store : List Advance) (s : σ),
      (runUnpaid body store up s).store.length = store.length := by
  intro up
  induction up with
  | nil => intro store s; rw [runUnpaid_nil]
  | cons j rest ih =>
    intro store s
    cases hc : (store.getD j default).is_close with
    | true =>
      rw [runUnpaid_cons_closed _ _ _ _ _ hc]
      exact ih store s
    | false =>
      cases hb : body s (store.getD j default) with
      | error e => rw [runUnpaid_cons_open_error _ _ _ _ _ _ hc hb]
      | ok o =>
        cases o with
        | none => rw [runUnpaid_cons_open_break _ _ _ _ _ hc hb]
        | some p =>
          obtain ⟨s', a'⟩ := p
          cases h' : a'.is_close with
          | true =>
            rw [runUnpaid_cons_open_step_closed _ _ _ _ _ _ _ hc hb h']
            rw [ih _ s', List.length_set]
          | false =>
            rw [runUnpaid_cons_open_step_open _ _ _ _ _ _ _ hc hb h']
            rw [ih _ s', List.length_set]

/-- Overwriting index `j` with an advance of equal remaining amount
does not change any index's remaining amount. -/
theorem getD_set_remaining (store : List Advance) (j : ℕ) (a' : Advance)
    (h : a'.remaining_amount = (store.getD j default).remaining_amount) (i : ℕ) :
    ((store.set j a').getD i default).remaining_amount
      = (store.getD i default).remaining_amount := by
  by_cases hij : i = j
  · subst hij
    by_cases hlen : i < store.length
    · rw [getD_set_self _ _ _ _ hlen, h]
    · rw [list_set_oob _ _ _ (not_lt.mp hlen)]
  · rw [getD_set_ne _ _ _ _ _ (fun hji => hij hji.symm)]

/-- The interest sweep never changes the unpaid list and never changes
any advance's remaining amount (for any payment date, successful or
not): `pay_interest` only moves dates, yielded advances stay open and
nothing is removed. -/
theorem runUnpaid_interest_state (pd : DateStr) :
    ∀ (up : List ℕ) (store : List Advance) (s : ℚ × ℚ),
      (runUnpaid (interestBody pd) store up s).unpaid = up
      ∧ ∀ i, ((runUnpaid (interestBody pd) store up s).store.getD i default).remaining_amount
          = (store.getD i default).remaining_amount := by
  intro up
  induction up with
  | nil =>
    intro store s
    rw [runUnpaid_nil]
    exact ⟨rfl, fun i => rfl⟩
  | cons j rest ih =>
    intro store s
    cases hc : (store.getD j default).is_close with
    | true =>
      rw [runUnpaid_cons_closed _ _ _ _ _ hc]
      obtain ⟨h1, h2⟩ := ih store s
      exact ⟨by rw [h1], h2⟩
    | false =>
      by_cases hz : s.1 = 0
      · have hb : interestBody pd s (store.getD j default) = .ok none := by
          unfold interestBody
          rw [if_pos hz]
        rw [runUnpaid_cons_open_break _ _ _ _ _ hc hb]
        exact ⟨rfl, fun i => rfl⟩
      · cases hpi : (store.getD j default).pay_interest s.1 pd with
        | error e =>
          have hb : interestBody pd s (store.getD j default) = .error e := by
            unfold interestBody
            rw [if_neg hz, hpi]
          rw [runUnpaid_cons_open_error _ _ _ _ _ _ hc hb]
          exact ⟨rfl, fun i => rfl⟩
        | ok t =>
          obtain ⟨a', rest_amt, ip_amt⟩ := t
          have hb : interestBody pd s (store.getD j default)
              = .ok (some ((rest_amt, s.2 + ip_amt), a')) := by
            unfold interestBody
            rw [if_neg hz, hpi]
          have hrem : a'.remaining_amount = (store.getD j default).remaining_amount :=
            pay_interest_ok_remaining _ _ _ _ _ _ hpi
          have hopen' : a'.is_close = false := by
            rw [is_close_congr a' (store.getD j default) hrem]
            exact hc
          rw [runUnpaid_cons_open_step_open _ _ _ _ _ _ _ hc hb hopen']
          obtain ⟨h1, h2⟩ := ih (store.set j a') (rest_amt, s.2 + ip_amt)
          refine ⟨by rw [h1], fun i => ?_⟩
          rw [h2 i, getD_set_remaining store j a' hrem i]

/-- A capital sweep that starts with an exhausted (zero) balance stops
at its first open advance and keeps the balance at 0. -/
theorem runUnpaid_capital_zero :
    ∀ (up : List ℕ) (store : List Advance),
      (runUnpaid capitalBody store up 0).state = 0 := by
  intro up
  induction up with
  | nil => intro store; rw [runUnpaid_nil]
  | cons j rest ih =>
    intro store
    cases hc : (store.getD j default).is_close with
    | true =>
      rw [runUnpaid_cons_closed _ _ _ _ _ hc]
      exact ih store
    | false =>
      have hb : capitalBody 0 (store.getD j default) = .ok none := by
        unfold capitalBody
        rw [if_pos rfl]
      rw [runUnpaid_cons_open_break _ _ _ _ _ hc hb]

/-- The capital sweep preserves non-negativity of every remaining
amount: `pay_capital` clamps at 0. -/
theorem runUnpaid_capital_nonneg :
    ∀ (up : List ℕ) (store : List Advance) (s : ℚ),
      (∀ i, 0 ≤ (store.getD i default).remaining_amount) →
      ∀ i, 0 ≤ ((runUnpaid capitalBody store up s).store.getD i default).remaining_amount := by
  intro up
  induction up with
  | nil =>
    intro store s h i
    rw [runUnpaid_nil]
    exact h i
  | cons j rest ih =>
    intro store s h
    cases hc : (store.getD j default).is_close with
    | true =>
      rw [runUnpaid_cons_closed _ _ _ _ _ hc]
      exact ih store s h
    | false =>
      by_cases hz : s = 0
      · have hb : capitalBody s (store.getD j default) = .ok none := by
          unfold capitalBody
          rw [if_pos hz]
        rw [runUnpaid_cons_open_break _ _ _ _ _ hc hb]
        exact h
      · have hb : capitalBody s (store.getD j default)
            = .ok (some ((((store.getD j default).pay_capital s).2,
                          ((store.getD j default).pay_capital s).1))) := by
          unfold capitalBody
          rw [if_neg hz]
        have hset : ∀ i, 0 ≤ ((store.set j ((store.getD j default).pay_capital s).1).getD
            i default).remaining_amount := by
          intro i
          by_cases hij : i = j
          · subst hij
            by_cases hlen : i < store.length
            · rw [getD_set_self _ _ _ _ hlen]
              exact pay_capital_nonneg _ _
            · rw [list_set_oob _ _ _ (not_lt.mp hlen)]
              exact h i
          · rw [getD_set_ne _ _ _ _ _ (fun hji => hij hji.symm)]
            exact h i
        cases h' : ((store.getD j default).pay_capital s).1.is_close with
        | true =>
          rw [runUnpaid_cons_open_step_closed _ _ _ _ _ _ _ hc hb h']
          exact ih _ _ hset
        | false =>
          rw [runUnpaid_cons_open_step_open _ _ _ _ _ _ _ hc hb h']
          exact ih _ _ hset

/-- The capital sweep runs until the cash is gone or every advance it
can see is closed: provided every open advance of the arena is on the
unpaid list, it ends with balance 0 or with every index closed. -/
theorem runUnpaid_capital_exhausts :
    ∀ (up : List ℕ) (store : List Advance) (s : ℚ),
      (∀ i, i < store.length → (store.getD i default).is_close = false → i ∈ up) →
      (runUnpaid capitalBody store up s).state = 0
      ∨ ∀ i, ((runUnpaid capitalBody store up s).store.getD i default).is_close = true := by
  intro up
  induction up with
  | nil =>
    intro store s h
    rw [runUnpaid_nil]
    right
    intro i
    by_cases hlen : i < store.length
    · cases hcl : (store.getD i default).is_close with
      | true => rfl
      | false => exact absurd (h i hlen hcl) (List.not_mem_nil i)
    · rw [List.getD_eq_default _ _ (not_lt.mp hlen)]
      exact default_advance_is_close
  | cons j rest ih =>
    intro store s h
    cases hc : (store.getD j default).is_close with
    | true =>
      rw [runUnpaid_cons_closed _ _ _ _ _ hc]
      refine ih store s (fun i hlen hop => ?_)
      rcases List.mem_cons.mp (h i hlen hop) with rfl | hmem
      · rw [hc] at hop
        cases hop
      · exact hmem
    | false =>
      by_cases hz : s = 0
      · have hb : capitalBody s (store.getD j default) = .ok none := by
          unfold capitalBody
          rw [if_pos hz]
        rw [runUnpaid_cons_open_break _ _ _ _ _ hc hb]
        exact Or.inl hz
      · have hb : capitalBody s (store.getD j default)
            = .ok (some ((((store.getD j default).pay_capital s).2,
                          ((store.getD j default).pay_capital s).1))) := by
          unfold capitalBody
          rw [if_neg hz]
        have hjlen : j < store.length := by
          by_contra hge
          rw [List.getD_eq_default _ _ (not_lt.mp hge), default_advance_is_close] at hc
          cases hc
        cases h' : ((store.getD j default).pay_capital s).1.is_close with
        | true =>
          rw [runUnpaid_cons_open_step_closed _ _ _ _ _ _ _ hc hb h']
          refine ih _ _ (fun i hlen hop => ?_)
          by_cases hij : i = j
          · subst hij
            rw [getD_set_self _ _ _ _ hjlen, h'] at hop
            cases hop
          · rw [getD_set_ne _ _ _ _ _ (fun hji => hij hji.symm)] at hop
            rw [List.length_set] at hlen
            rcases List.mem_cons.mp (h i hlen hop) with rfl | hmem
            · exact absurd rfl hij
            · exact hmem
        | false =>
          have hrest0 : ((store.getD j default).pay_capital s).2 = 0 :=
            pay_capital_open_rest _ _ h'
          rw [runUnpaid_cons_open_step_open _ _ _ _ _ _ _ hc hb h']
          left
          rw [hrest0]
          exact runUnpaid_capital_zero rest _

/-- The capital sweep only closes advances and only removes indices of
advances it closed: an index open after the sweep was open before it,
and if it was on the unpaid list it still is. -/
theorem runUnpaid_capital_open_sub :
    ∀ (up : List ℕ) (store : List Advance) (s : ℚ) (i : ℕ),
      ((runUnpaid capitalBody store up s).store.getD i default).is_close = false →
      (store.getD i default).is_close = false
      ∧ (i ∈ up → i ∈ (runUnpaid capitalBody store up s).unpaid) := by
  intro up
  induction up with
  | nil =>
    intro store s i h
    rw [runUnpaid_nil] at h ⊢
    exact ⟨h, fun hmem => hmem⟩
  | cons j rest ih =>
    intro store s i h
    cases hc : (store.getD j default).is_close with
    | true =>
      rw [runUnpaid_cons_closed _ _ _ _ _ hc] at h ⊢
      obtain ⟨h1, h2⟩ := ih store s i h
      refine ⟨h1, fun hmem => ?_⟩
      rcases List.mem_cons.mp hmem with rfl | hmem'
      · exact List.mem_cons_self _ _
      · exact List.mem_cons_of_mem _ (h2 hmem')
    | false =>
      by_cases hz : s = 0
      · have hb : capitalBody s (store.getD j default) = .ok none := by
          unfold capitalBody
          rw [if_pos hz]
        rw [runUnpaid_cons_open_break _ _ _ _ _ hc hb] at h ⊢
        exact ⟨h, fun hmem => hmem⟩
      · have hb : capitalBody s (store.getD j default)
            = .ok (some ((((store.getD j default).pay_capital s).2,
                          ((store.getD j default).pay_capital s).1))) := by
          unfold capitalBody
          rw [if_neg hz]
        have hjlen : j < store.length := by
          by_contra hge
          rw [List.getD_eq_default _ _ (not_lt.mp hge), default_advance_is_close] at hc
          cases hc
        cases h' : ((store.getD j default).pay_capital s).1.is_close with
        | true =>
          rw [runUnpaid_cons_open_step_closed _ _ _ _ _ _ _ hc hb h'] at h ⊢
          obtain ⟨h1, h2⟩ := ih _ _ i h
          have hij : i ≠ j := by
            intro hij
            subst hij
            rw [getD_set_self _ _ _ _ hjlen, h'] at h1
            cases h1
          rw [getD_set_ne _ _ _ _ _ (fun hji => hij hji.symm)] at h1
          refine ⟨h1, fun hmem => ?_⟩
          rcases List.mem_cons.mp hmem with rfl | hmem'
          · exact absurd rfl hij
          · exact h2 hmem'
        | false =>
          rw [runUnpaid_cons_open_step_open _ _ _ _ _ _ _ hc hb h'] at h ⊢
          by_cases hij : i = j
          · subst hij
            exact ⟨hc, fun _ => List.mem_cons_self _ _⟩
          · obtain ⟨h1, h2⟩ := ih _ _ i h
            rw [getD_set_ne _ _ _ _ _ (fun hji => hij hji.symm)] at h1
            refine ⟨h1, fun hmem => ?_⟩
            rcases List.mem_cons.mp hmem with rfl | hmem'
            · exact absurd rfl hij
            · exact List.mem_cons_of_mem _ (h2 hmem')

/-! ### Conversions between per-index and per-element statements -/

theorem forall_getD_of_mem {P : Advance → Prop} (l : List Advance)
    (h : ∀ a ∈ l, P a) (hP : P default) : ∀ i, P (l.getD i default) := by
  intro i
  by_cases hi : i < l.length
  · refine h _ ?_
    rw [List.getD_eq_getElem?_getD, List.getElem?_eq_getElem hi]
    exact List.getElem_mem hi
  · rw [List.getD_eq_default _ _ (not_lt.mp hi)]
    exact hP

theorem mem_of_forall_getD {P : Advance → Prop} (l : List Advance)
    (h : ∀ i, P (l.getD i default)) : ∀ a ∈ l, P a := by
  intro a ha
  obtain ⟨i, hi, rfl⟩ := List.mem_iff_getElem.mp ha
  have hP := h i
  rw [List.getD_eq_getElem?_getD, List.getElem?_eq_getElem hi] at hP
  exact hP

theorem getD_append_left {α : Type} (l l' : List α) (i : ℕ) (d : α) (h : i < l.length) :
    (l ++ l').getD i d = l.getD i d := by
  induction l generalizing i with
  | nil => simp at h
  | cons x xs ih =>
    cases i with
    | zero => rfl
    | succ n => simpa [List.getD] using ih n (by simpa using h)

theorem getD_append_last {α : Type} (l : List α) (a d : α) :
    (l ++ [a]).getD l.length d = a := by
  induction l with
  | nil => rfl
  | cons x xs ih => simpa [List.getD] using ih

/-! ### Closed forms for `add_advance` -/

theorem add_advance_valid_eq (b : Balance) (d : ℤ) (amount : ℚ) (rate0 : Option ℚ) :
    b.add_advance (.valid d) amount rate0 =
      .ok { b with
            balance := if amount < b.balance then b.balance - amount else 0
            advances := b.advances ++
              [⟨d, amount, if amount < b.balance then 0 else amount - b.balance,
                rate0.getD b.daily_interest_rate, d⟩]
            unpaid_advances := b.unpaid_advances ++ [b.advances.length] } := by
  by_cases h : amount < b.balance <;> simp [Balance.add_advance, fromisoformat, h]

theorem add_advance_invalid_eq (b : Balance) (amount : ℚ) (rate0 : Option ℚ) :
    b.add_advance .invalid amount rate0 =
      .error { b with
               balance := if amount < b.balance then b.balance - amount else 0 } := by
  by_cases h : amount < b.balance <;> simp [Balance.add_advance, fromisoformat, h]

/-- Whether or not the interest sweep raises, the state it leaves
behind is the ledger with the sweep's arena, unpaid list, balance and
collected interest. -/
theorem resultState_pay_interest (b : Balance) (pd : DateStr) :
    resultState (b.pay_interest pd) =
      { b with
        advances := (runUnpaid (interestBody pd) b.advances b.unpaid_advances
          (b.balance, b.interest_paid)).store
        unpaid_advances := (runUnpaid (interestBody pd) b.advances b.unpaid_advances
          (b.balance, b.interest_paid)).unpaid
        balance := (runUnpaid (interestBody pd) b.advances b.unpaid_advances
          (b.balance, b.interest_paid)).state.1
        interest_paid := (runUnpaid (interestBody pd) b.advances b.unpaid_advances
          (b.balance, b.interest_paid)).state.2 } := by
  unfold Balance.pay_interest
  dsimp only
  cases (runUnpaid (interestBody pd) b.advances b.unpaid_advances
      (b.balance, b.interest_paid)).err with
  | none => rfl
  | some e => rfl

/-! ### The ledger invariant -/

/-- The two structural invariants every reachable ledger satisfies:
every open advance of the arena is on the unpaid working list, and
every advance's remaining amount is non-negative. -/
def LedgerInv (b : Balance) : Prop :=
  (∀ i, i < b.advances.length →
    (b.advances.getD i default).is_close = false → i ∈ b.unpaid_advances)
  ∧ ∀ a ∈ b.advances, 0 ≤ a.remaining_amount

theorem pay_interest_sweep_inv (b : Balance) (pd : DateStr) (h : LedgerInv b) :
    LedgerInv (resultState (b.pay_interest pd)) := by
  rw [resultState_pay_interest]
  obtain ⟨h1, h2⟩ :=
    runUnpaid_interest_state pd b.unpaid_advances b.advances (b.balance, b.interest_paid)
  unfold LedgerInv at h ⊢
  dsimp only
  constructor
  · intro i hi hop
    rw [runUnpaid_store_length] at hi
    rw [is_close_congr _ (b.advances.getD i default) (h2 i)] at hop
    rw [h1]
    exact h.1 i hi hop
  · refine mem_of_forall_getD _ (fun i => ?_)
    rw [h2 i]
    exact forall_getD_of_mem _ h.2 (le_refl 0) i

theorem pay_capital_sweep_inv (b : Balance) (h : LedgerInv b) :
    LedgerInv b.pay_capital := by
  unfold LedgerInv at h ⊢
  unfold Balance.pay_capital
  dsimp only
  constructor
  · intro i hi hop
    obtain ⟨hopen, hkeep⟩ :=
      runUnpaid_capital_open_sub b.unpaid_advances b.advances b.balance i hop
    rw [runUnpaid_store_length] at hi
    exact hkeep (h.1 i hi hopen)
  · exact mem_of_forall_getD _
      (runUnpaid_capital_nonneg _ _ _ (forall_getD_of_mem _ h.2 (le_refl 0)))

/-- Every reachable ledger satisfies the invariant. -/
theorem reachable_inv (b : Balance) (h : Reachable b) : LedgerInv b := by
  induction h with
  | init rate bal hb =>
    constructor
    · intro i hi
      simp [Balance.init] at hi
    · intro a ha
      simp [Balance.init] at ha
  | add_advance b d amount rate0 hb hamt ih =>
    cases d with
    | invalid =>
      rw [add_advance_invalid_eq]
      exact ih
    | valid dd =>
      rw [add_advance_valid_eq]
      unfold resultState LedgerInv
      dsimp only
      constructor
      · intro i hi hop
        rw [List.length_append, List.length_singleton] at hi
        by_cases hlt : i < b.advances.length
        · rw [getD_append_left _ _ _ _ hlt] at hop
          exact List.mem_append_left _ (ih.1 i hlt hop)
        · have hieq : i = b.advances.length := by omega
          subst hieq
          exact List.mem_append_right _ (List.mem_singleton.mpr rfl)
      · intro a ha
        rcases List.mem_append.mp ha with hmem | hmem
        · exact ih.2 a hmem
        · rw [List.mem_singleton.mp hmem]
          dsimp only
          split
          · exact le_refl 0
          · linarith [not_lt.mp (by assumption : ¬ amount < b.balance)]
  | add_payment b d amount hb hamt ih =>
    have ih1 : LedgerInv
        { b with
          payments := b.payments ++ [Payment.mk d amount]
          balance := b.balance + amount } := ih
    unfold Balance.add_payment
    dsimp only
    cases hpi : ({ b with
        payments := b.payments ++ [Payment.mk d amount]
        balance := b.balance + amount } : Balance).pay_interest d with
    | error b2 =>
      have hb2 : b2 = resultState (({ b with
          payments := b.payments ++ [Payment.mk d amount]
          balance := b.balance + amount } : Balance).pay_interest d) := by
        rw [hpi]
        rfl
      show LedgerInv b2
      rw [hb2]
      exact pay_interest_sweep_inv _ d ih1
    | ok b2 =>
      have hb2 : b2 = resultState (({ b with
          payments := b.payments ++ [Payment.mk d amount]
          balance := b.balance + amount } : Balance).pay_interest d) := by
        rw [hpi]
        rfl
      show LedgerInv b2.pay_capital
      refine pay_capital_sweep_inv _ ?_
      rw [hb2]
      exact pay_interest_sweep_inv _ d ih1
  | advances_balance b hb ih =>
    unfold Balance.advances_balance
    rw [runUnpaid_pure]
    exact ih
  | interest_payable_balance b to_date hb ih =>
    unfold Balance.interest_payable_balance
    rw [runUnpaid_pure]
    exact ih

/-- C7: `payCapital(amount)` sets the remaining amount to
`max(0, remaining - amount)` and returns `max(0, amount - remaining)`,
and on every ledger reachable through the public interface with
non-negative amounts, every advance ever held has a non-negative
remaining amount after every operation. -/
theorem C7_remaining_nonneg :
    (∀ (a : Advance) (amount : ℚ),
      a.pay_capital amount
        = ({ a with remaining_amount := max 0 (a.remaining_amount - amount) },
           max 0 (amount - a.remaining_amount)))
    ∧ ∀ b : Balance, Reachable b → ∀ a ∈ b.advances, 0 ≤ a.remaining_amount := by
  constructor
  · intro a amount
    unfold Advance.pay_capital
    dsimp only
    split
    next hlt =>
      rw [max_eq_left (by linarith : a.remaining_amount - amount ≤ 0),
        max_eq_right (by linarith : (0 : ℚ) ≤ amount - a.remaining_amount), neg_sub]
    next hge =>
      have hge' : 0 ≤ a.remaining_amount - amount := not_lt.mp hge
      rw [max_eq_right hge', max_eq_left (by linarith : amount - a.remaining_amount ≤ 0)]
  · exact fun b hr => (reachable_inv b hr).2

/-- Witness for C7: `payCapital(200)` on an advance owing 500 leaves 300
and returns 0, and on the reachable ledger obtained by
`addAdvance("2024-01-01", 500)` from a buffer of 200 the resulting
advance's remaining amount 300 is non-negative. -/
theorem C7_remaining_nonneg_witness :
    (⟨738886, 500, 500, 1/100, 738886⟩ : Advance).pay_capital 200
        = (⟨738886, 500, 300, 1/100, 738886⟩, 0)
    ∧ 0 ≤ (⟨738886, 500, 300, 1/100, 738886⟩ : Advance).remaining_amount := by
  constructor
  · rw [C7_remaining_nonneg.1 ⟨738886, 500, 500, 1/100, 738886⟩ 200]
    norm_num
  · have hr : Reachable (resultState
        ((Balance.init (1/100) 200).add_advance (.valid 738886) 500 none)) :=
      Reachable.add_advance _ _ _ _ (Reachable.init (1/100) 200 (by norm_num))
        (by norm_num)
    have heqB : resultState ((Balance.init (1/100) 200).add_advance (.valid 738886) 500 none)
        = ⟨[⟨738886, 500, 300, 1/100, 738886⟩], [0], [], 0, 1/100, 0⟩ := by
      norm_num [resultState, Balance.add_advance, Balance.init, fromisoformat]
    refine C7_remaining_nonneg.2 _ (heqB ▸ hr) _ ?_
    exact List.mem_singleton.mpr rfl

/-- C10: with non-negative amounts only, a successful `addPayment`
leaves no allocatable cash behind: afterwards either the cash buffer is
exactly 0 or every advance the ledger holds is closed. -/
theorem C10_cash_exhausted_or_all_closed (b : Balance) (d : DateStr) (amount : ℚ)
    (b' : Balance) (hreach : Reachable b) (hamt : 0 ≤ amount)
    (h : b.add_payment d amount = .ok b') :
    b'.balance = 0 ∨ b'.advances.all Advance.is_close = true := by
  have hinv : LedgerInv b := reachable_inv b hreach
  have hinv1 : LedgerInv
      { b with
        payments := b.payments ++ [Payment.mk d amount]
        balance := b.balance + amount } := hinv
  unfold Balance.add_payment at h
  dsimp only at h
  cases hpi : ({ b with
      payments := b.payments ++ [Payment.mk d amount]
      balance := b.balance + amount } : Balance).pay_interest d with
  | error b2 =>
    rw [hpi] at h
    cases h
  | ok b2 =>
    rw [hpi] at h
    injection h with h'
    subst h'
    have hinv2 : LedgerInv b2 := by
      have hb2 : b2 = resultState (({ b with
          payments := b.payments ++ [Payment.mk d amount]
          balance := b.balance + amount } : Balance).pay_interest d) := by
        rw [hpi]
        rfl
      rw [hb2]
      exact pay_interest_sweep_inv _ d hinv1
    unfold Balance.pay_capital
    dsimp only
    rcases runUnpaid_capital_exhausts b2.unpaid_advances b2.advances b2.balance hinv2.1
      with h0 | hall
    · exact Or.inl h0
    · refine Or.inr (List.all_eq_true.mpr ?_)
      exact mem_of_forall_getD _ hall

/-- Witness for C10: `addPayment("2024-01-02", 5)` on a reachable ledger
with one open advance of 100 pays 1 of interest and 4 of capital, so the
buffer comes back 0. -/
theorem C10_cash_exhausted_or_all_closed_witness :
    (⟨[⟨738886, 100, 96, 1/100, 738887⟩], [0], [⟨.valid 738887, 5⟩], 1, 1/100, 0⟩ :
        Balance).balance = 0
    ∨ (⟨[⟨738886, 100, 96, 1/100, 738887⟩], [0], [⟨.valid 738887, 5⟩], 1, 1/100, 0⟩ :
        Balance).advances.all Advance.is_close = true := by
  have hr : Reachable (resultState
      ((Balance.init (1/100) 0).add_advance (.valid 738886) 100 none)) :=
    Reachable.add_advance _ _ _ _ (Reachable.init (1/100) 0 (le_refl 0)) (by norm_num)
  have heqB : resultState ((Balance.init (1/100) 0).add_advance (.valid 738886) 100 none)
      = ⟨[⟨738886, 100, 100, 1/100, 738886⟩], [0], [], 0, 1/100, 0⟩ := by
    norm_num [resultState, Balance.add_advance, Balance.init, fromisoformat]
  have hok : (⟨[⟨738886, 100, 100, 1/100, 738886⟩], [0], [], 0, 1/100, 0⟩ :
      Balance).add_payment (.valid 738887) 5
      = .ok ⟨[⟨738886, 100, 96, 1/100, 738887⟩], [0], [⟨.valid 738887, 5⟩], 1, 1/100, 0⟩ := by
    norm_num [Balance.add_payment, Balance.pay_interest, Balance.pay_capital, runUnpaid,
      interestBody, capitalBody, Advance.pay_interest, Advance.pay_capital, fromisoformat,
      Advance.interest_payable_balance, Advance.days_from_last_interest_payment,
      Advance.interest_by_day, Advance.is_close]
  exact C10_cash_exhausted_or_all_closed _ (.valid 738887) 5 _ (heqB ▸ hr)
    (by norm_num) hok

end AmplaLedger
